import Mathlib

/-!
Verification of the path-like selector core (`plsel.py`): tokenizer,
selector evaluator, index builder, query path and `PortMapper`.

The Python code is shallowly embedded: strings are processed as `List Char`,
the ply lexer is modelled as a first-rule-matching scanner whose rules are
tried in the definition order of the `t_*` functions (ASTERISK, INTEGER,
INTEGER_SET, INTERVAL, STRING, STRING_SET), pandas row selection is modelled
as an order-preserving filter over the list of index tuples, and numpy fancy
indexing / assignment is modelled positionally.  Exceptions (ply lex errors,
`ValueError`, `AssertionError`, `IndexError`) are modelled by `Option`
results (`none` = the call raises).
-/

namespace Plsel

/-- Scalar label of one level of a hierarchical key.  Python values in the
MultiIndex are either strings or integers; equality is structural and
type-sensitive, exactly like Python `==` on `str`/`int`. -/
inductive Elem where
  | str (s : String)
  | int (i : Int)
deriving DecidableEq, Repr

/-- Tokens produced by the ply lexer of `PathLikeSelector`.  The interval
stop bound is `none` when the source text omitted it (`np.inf` in Python). -/
inductive Token where
  | asterisk
  | integer (v : Int)
  | integerSet (vs : List Int)
  | interval (a : Int) (b : Option Int)
  | string (s : String)
  | stringSet (ss : List String)
deriving DecidableEq, Repr

/-- Characters excluded by the lexer character classes `[^*/\[\]:]`. -/
def notSpecial (c : Char) : Bool :=
  !(c == '*' || c == '/' || c == '[' || c == ']' || c == ':')

/-- Value of a nonempty digit run, as computed by Python `int`. -/
def digitsVal (ds : List Char) : Int :=
  ((ds.foldl (fun (n : Nat) c => n * 10 + (c.toNat - 48)) 0 : Nat) : Int)

/-- Python `str.split(sep)` on a character list (always at least one group,
empty groups preserved). -/
def splitOnChar (sep : Char) : List Char → List (List Char)
  | [] => [[]]
  | c :: rest =>
    let r := splitOnChar sep rest
    if c == sep then [] :: r
    else
      match r with
      | g :: gs => (c :: g) :: gs
      | [] => [[c]]

/-- Rejects two adjacent commas, as the regex `(?:\d+,?)+` does. -/
def noDoubleComma : List Char → Bool
  | [] => true
  | [_] => true
  | c :: d :: rest => !(c == ',' && d == ',') && noDoubleComma (d :: rest)

/-- Whether a digit/comma run is matched by `(?:\d+,?)+`: nonempty, starts
with a digit and has no empty group between commas (a trailing comma is
accepted by the regex). -/
def intSetRunOk (run : List Char) : Bool :=
  match run with
  | [] => false
  | c :: _ => c.isDigit && noDoubleComma run

/-- Whether the run ends in a comma (then `int('')` raises in the token
value computation). -/
def endsComma (run : List Char) : Bool :=
  match run.getLast? with
  | some c => c == ','
  | none => false

/-- Result of trying one lexer rule: no match (try the next rule), a match
whose value computation raises, or a token plus remaining input. -/
inductive MRes where
  | noMatch
  | lexErr
  | ok (t : Token) (rest : List Char)

/-- Rule `t_ASTERISK`, regex `/\*`. -/
def matchASTERISK : List Char → Option (Token × List Char)
  | '/' :: '*' :: rest => some (Token.asterisk, rest)
  | _ => none

/-- Bracketed integer `\[\d+\]` (shared body of `t_INTEGER`). -/
def matchIntegerBody : List Char → Option (Int × List Char)
  | '[' :: rest =>
    let ds := rest.takeWhile Char.isDigit
    match rest.dropWhile Char.isDigit with
    | ']' :: rest' => if ds.isEmpty then none else some (digitsVal ds, rest')
    | _ => none
  | _ => none

/-- Rule `t_INTEGER`, regex `/?\[\d+\]`; the value is the bracketed
integer. -/
def matchINTEGER : List Char → Option (Token × List Char)
  | '/' :: rest => (matchIntegerBody rest).map (fun p => (Token.integer p.1, p.2))
  | s => (matchIntegerBody s).map (fun p => (Token.integer p.1, p.2))

/-- Body of `t_INTEGER_SET` after the optional slash.  When the matched text
kept a leading `/` or ends in a comma, `map(int, t.value.strip('[]').split(','))`
raises `ValueError` (the `strip` does not remove the slash, and `int('')`
fails), which aborts the whole parse. -/
def matchIntSetBody (slash : Bool) : List Char → MRes
  | '[' :: rest =>
    let run := rest.takeWhile (fun c => c.isDigit || c == ',')
    match rest.dropWhile (fun c => c.isDigit || c == ',') with
    | ']' :: rest' =>
      if intSetRunOk run then
        if slash || endsComma run then MRes.lexErr
        else MRes.ok (Token.integerSet ((splitOnChar ',' run).map digitsVal)) rest'
      else MRes.noMatch
    | _ => MRes.noMatch
  | _ => MRes.noMatch

/-- Rule `t_INTEGER_SET`, regex `/?\[(?:\d+,?)+\]`. -/
def matchINTEGER_SET : List Char → MRes
  | '/' :: rest => matchIntSetBody true rest
  | s => matchIntSetBody false s

/-- Rule `t_INTERVAL`, regex `\[\d*\:\d*\]` (no leading slash in the
pattern); value via `_parse_interval_str`: a missing start defaults to `0`,
a missing stop to `np.inf` (`none`). -/
def matchINTERVAL : List Char → Option (Token × List Char)
  | '[' :: rest =>
    let d1 := rest.takeWhile Char.isDigit
    match rest.dropWhile Char.isDigit with
    | ':' :: r2 =>
      let d2 := r2.takeWhile Char.isDigit
      match r2.dropWhile Char.isDigit with
      | ']' :: r3 =>
        some (Token.interval (if d1.isEmpty then 0 else digitsVal d1)
                (if d2.isEmpty then none else some (digitsVal d2)), r3)
      | _ => none
    | _ => none
  | _ => none

/-- Rule `t_STRING`, regex `/[^*/\[\]:\d][^*/\[\]:]*`. -/
def matchSTRING : List Char → Option (Token × List Char)
  | '/' :: c :: rest =>
    if notSpecial c && !c.isDigit then
      some (Token.string (String.mk (c :: rest.takeWhile notSpecial)),
            rest.dropWhile notSpecial)
    else none
  | _ => none

/-- Rule `t_STRING_SET`, regex `/\[(?:[^*/\[\]:\d][^*/\[\]:]*,?)+\]`.
Commas are inside the inner character class, so the regex accepts any run of
non-special characters whose first character is not a digit; the value is
`strip('/[]')` then `split(',')`. -/
def matchSTRING_SET : List Char → Option (Token × List Char)
  | '/' :: '[' :: c :: rest =>
    if notSpecial c && !c.isDigit then
      match rest.dropWhile notSpecial with
      | ']' :: r2 =>
        some (Token.stringSet
                ((splitOnChar ',' (c :: rest.takeWhile notSpecial)).map String.mk), r2)
      | _ => none
    else none
  | _ => none

/-- One lexer step: the rules are tried in the definition order of the ply
token functions; the first rule whose regex matches at the current position
wins, as ply's master regex alternation does. -/
def nextToken (s : List Char) : MRes :=
  match matchASTERISK s with
  | some (t, r) => MRes.ok t r
  | none =>
    match matchINTEGER s with
    | some (t, r) => MRes.ok t r
    | none =>
      match matchINTEGER_SET s with
      | MRes.ok t r => MRes.ok t r
      | MRes.lexErr => MRes.lexErr
      | MRes.noMatch =>
        match matchINTERVAL s with
        | some (t, r) => MRes.ok t r
        | none =>
          match matchSTRING s with
          | some (t, r) => MRes.ok t r
          | none =>
            match matchSTRING_SET s with
            | some (t, r) => MRes.ok t r
            | none => MRes.noMatch

/-- Fuel-indexed scanning loop (`PathLikeSelector.parse`); every accepted
token consumes at least one character, so `length + 1` fuel suffices.
`none` models `t_error` raising `ValueError` or a value computation
raising. -/
def tokenizeAux : Nat → List Char → Option (List Token)
  | _, [] => some []
  | 0, _ :: _ => none
  | fuel + 1, c :: cs =>
    match nextToken (c :: cs) with
    | MRes.ok t r => (tokenizeAux fuel r).map (fun ts => t :: ts)
    | _ => none

/-- `PathLikeSelector.parse`: full tokenization of a selector string. -/
def tokenize (sel : String) : Option (List Token) :=
  tokenizeAux (sel.length + 1) sel.data

/-- Python slice index normalization for `l[start:stop]` (step 1): `none` is
the default, a negative index counts from the end, and everything clamps to
`[0, n]`. -/
def pyIdx (n : Nat) (dflt : Nat) : Option Int → Nat
  | none => dflt
  | some i => if i < 0 then ((n : Int) + i).toNat else i.toNat

/-- Python slicing `l[start:stop]`. -/
def pySlice (l : List α) (start stop : Option Int) : List α :=
  (l.take (pyIdx l.length l.length stop)).drop (pyIdx l.length 0 start)

/-- Python 2 `x >= a` where `a` is an integer: a string compares greater
than every number (type-name ordering), so the test is true on strings. -/
def pyGeInt : Elem → Int → Bool
  | Elem.int x, a => decide (a ≤ x)
  | Elem.str _, _ => true

/-- Python 2 `x < b` with an integer bound: false on strings. -/
def pyLtInt : Elem → Int → Bool
  | Elem.int x, b => decide (x < b)
  | Elem.str _, _ => false

/-- Python 2 `x < np.inf`: true on every integer, false on strings
(a `str` compares greater than a `float`). -/
def pyLtInf : Elem → Bool
  | Elem.int _ => true
  | Elem.str _ => false

/-- One token test of `_select_test` against one row element, per token
kind: exact tokens by (type-sensitive) equality, sets by membership,
intervals by `value >= start and value < stop`. -/
def tokenMatch : Token → Elem → Bool
  | Token.asterisk, _ => true
  | Token.integer v, e => decide (e = Elem.int v)
  | Token.string s, e => decide (e = Elem.str s)
  | Token.integerSet vs, e => decide (e ∈ vs.map Elem.int)
  | Token.stringSet ss, e => decide (e ∈ ss.map Elem.str)
  | Token.interval a b, e =>
    pyGeInt e a &&
      (match b with
       | some b' => pyLtInt e b'
       | none => pyLtInf e)

/-- Loop of `_select_test` over `enumerate(token_list)` against the already
sliced row: an `ASTERISK` token is skipped without touching the row, any
other token reads `row_sub[i]`.  An out-of-range read (which would raise
`IndexError` in Python, and is unreachable when the arity guard holds for a
well-formed frame) is modelled as a non-match. -/
def testFrom (row : List Elem) : Nat → List Token → Bool
  | _, [] => true
  | i, Token.asterisk :: ts => testFrom row (i + 1) ts
  | i, t :: ts =>
    (match row.get? i with
     | some e => tokenMatch t e
     | none => false) && testFrom row (i + 1) ts

/-- `_select_test`: slice the row to `[start:stop]` and test every token. -/
def selectTest (row : List Elem) (ts : List Token) (start stop : Option Int) : Bool :=
  testFrom (pySlice row start stop) 0 ts

/-- A pandas object with a MultiIndex, reduced to what the selector core
reads: the level names (only their number and, for `query`, their shape
matter; integer names of the unit tests are rendered as strings) and the
ordered list of index tuples. -/
structure DataFrame where
  names : List String
  keys : List (List Elem)
deriving DecidableEq, Repr

/-- `PathLikeSelector.get_tuples` / `select` on an already parsed token
list: the arity guard `len(token_list) > len(df.index.names[start:stop])`
raises `ValueError` (`none`); otherwise the rows are filtered in table
order.  Both methods filter the same way (`get_tuples` returns the index
tuples, `select` the corresponding sub-frame). -/
def selectT (df : DataFrame) (ts : List Token) (start stop : Option Int) :
    Option (List (List Elem)) :=
  if ts.length > (pySlice df.names start stop).length then none
  else some (df.keys.filter (fun r => selectTest r ts start stop))

/-- `select`/`get_tuples` applied to a selector string: parse, then filter. -/
def selectStr (df : DataFrame) (sel : String) (start stop : Option Int) :
    Option (List (List Elem)) :=
  (tokenize sel).bind (fun ts => selectT df ts start stop)

/-- Candidate list of one token in `make_index`: an `INTERVAL` becomes
`range(start, stop)` (raising, i.e. `none`, when the stop is `np.inf`),
sets keep their value lists, every other token contributes the singleton
`[token.value]` — including `ASTERISK`, whose value is the literal string
`'*'`. -/
def candList : Token → Option (List Elem)
  | Token.interval a b =>
    match b with
    | some b' => some ((List.range (b' - a).toNat).map (fun k : Nat => Elem.int (a + (k : Int))))
    | none => none
  | Token.integerSet vs => some (vs.map Elem.int)
  | Token.stringSet ss => some (ss.map Elem.str)
  | Token.integer v => some [Elem.int v]
  | Token.string s => some [Elem.str s]
  | Token.asterisk => some [Elem.str "*"]

/-- Candidate lists of all tokens (`list_list` in `make_index`); `none` as
soon as one token has no enumerable candidates. -/
def candLists : List Token → Option (List (List Elem))
  | [] => some []
  | t :: ts =>
    match candList t, candLists ts with
    | some c, some cs => some (c :: cs)
    | _, _ => none

/-- One level of the cartesian product: prepend each element of `c` to
every tail, keeping the element order of `c` (the element varies slower
than the tails). -/
def prodCons (c : List Elem) (tails : List (List Elem)) : List (List Elem) :=
  match c with
  | [] => []
  | x :: xs => tails.map (fun tl => x :: tl) ++ prodCons xs tails

/-- `pd.MultiIndex.from_product`: cartesian product of the candidate lists
in token order, first list varying slowest, last fastest. -/
def listProd : List (List Elem) → List (List Elem)
  | [] => [[]]
  | c :: cs => prodCons c (listProd cs)

/-- Number of product tuples. -/
def prodLen : List (List Elem) → Nat
  | [] => 1
  | c :: cs => c.length * prodLen cs

/-- Mixed-radix decoding of a product position: the key at position `k`
takes from each candidate list the digit `k / (product of later sizes)`,
so the first token varies slowest and the last fastest. -/
def decodeKey : List (List Elem) → Nat → List Elem
  | [], _ => []
  | c :: cs, k => c.getD (k / prodLen cs) (Elem.int 0) :: decodeKey cs (k % prodLen cs)

/-- Token-list part of `make_index`: candidate lists, then their cartesian
product in order.  `from_product` needs at least one level, so the empty
token list raises (`none`). -/
def makeIndexT (ts : List Token) : Option (List (List Elem)) :=
  match ts with
  | [] => none
  | _ => (candLists ts).map listProd

/-- The guard `assert not re.match(r'/\*/', selector)` of `make_index`:
`re.match` anchors at the start, so only a selector beginning with the
three characters `/*/` fires the assertion. -/
def startsWithSlashStarSlash : List Char → Bool
  | '/' :: '*' :: '/' :: _ => true
  | _ => false

/-- `PathLikeSelector.make_index`: assertion guard, parse, candidate lists,
cartesian product.  `none` models any raised exception. -/
def makeIndex (sel : String) : Option (List (List Elem)) :=
  if startsWithSlashStarSlash sel.data then none
  else (tokenize sel).bind makeIndexT

/-- `_isvalidvarname`: `re.match('[a-zA-Z_]\w*', s)` succeeds iff the
(unanchored-at-the-end) pattern matches a prefix, i.e. iff the first
character is a letter or underscore. -/
def isValidVarName (s : String) : Bool :=
  match s.data with
  | [] => false
  | c :: _ => c.isAlpha || c == '_'

/-- Whether a token is one of the two set kinds (skipped by `query`). -/
def isSetToken : Token → Bool
  | Token.integerSet _ => true
  | Token.stringSet _ => true
  | _ => false

/-- Whether a token contributes at least one comparison to the `query`
expression list (every kind except the two set kinds, which fall through
the `else: continue` branch). -/
def hasExprToken (t : Token) : Bool := !isSetToken t

/-- Conjunction of the expressions `query` builds, evaluated on one row:
`ASTERISK` contributes `name == name` (always true here), exact tokens an
equality, an interval `name >= start` plus, when the stop is finite,
`name < stop`; set tokens contribute nothing. -/
def queryTestFrom (row : List Elem) : Nat → List Token → Bool
  | _, [] => true
  | i, Token.asterisk :: ts => queryTestFrom row (i + 1) ts
  | i, Token.integerSet _ :: ts => queryTestFrom row (i + 1) ts
  | i, Token.stringSet _ :: ts => queryTestFrom row (i + 1) ts
  | i, Token.interval a b :: ts =>
    (match row.get? i with
     | some e =>
       pyGeInt e a &&
         (match b with
          | some b' => pyLtInt e b'
          | none => true)
     | none => false) && queryTestFrom row (i + 1) ts
  | i, t :: ts =>
    (match row.get? i with
     | some e => tokenMatch t e
     | none => false) && queryTestFrom row (i + 1) ts

/-- `PathLikeSelector.query` on a parsed token list: arity guard, the
assertion that every level name is a valid identifier, `df.query` on the
conjunction of the built expressions (an empty expression list makes
`df.query('')` raise), and otherwise an order-preserving filter. -/
def queryT (df : DataFrame) (ts : List Token) : Option (List (List Elem)) :=
  if ts.length > df.names.length then none
  else if !(df.names.all isValidVarName) then none
  else if !(ts.any hasExprToken) then none
  else some (df.keys.filter (fun r => queryTestFrom r 0 ts))

/-- `query` applied to a selector string. -/
def queryStr (df : DataFrame) (sel : String) : Option (List (List Elem)) :=
  (tokenize sel).bind (queryT df)

/-- `PortMapper`: the flat numeric buffer, the port-map index keys in
order (the Series values are `arange(len(data))`, so the row number of a
key is its buffer position), and the number of index levels
(`len(portmap.index.names)`). -/
structure PortMapper where
  data : List Int
  pmKeys : List (List Elem)
  levels : Nat
deriving DecidableEq, Repr

/-- `self.sel.select(self.portmap, selector)` followed by `.values`: arity
guard against the portmap's level count, then the positions (row numbers)
of the matching keys, in table order. -/
def selectPositions (pm : PortMapper) (ts : List Token) : Option (List Nat) :=
  if ts.length > pm.levels then none
  else some (((pm.pmKeys.enum).filter
      (fun p => selectTest p.2 ts none none)).map Prod.fst)

/-- Numpy fancy read `data[positions]`; an out-of-range position raises
`IndexError` (`none`). -/
def readAll (a : List Int) : List Nat → Option (List Int)
  | [] => some []
  | p :: ps =>
    match a.get? p, readAll a ps with
    | some v, some vs => some (v :: vs)
    | _, _ => none

/-- Pairwise part of numpy fancy assignment `data[positions] = values`,
in position order (later writes win on duplicates). -/
def writePairs (a : List Int) : List Nat → List Int → List Int
  | [], _ => a
  | _ :: _, [] => a
  | p :: ps, v :: vs => writePairs (a.set p v) ps vs

/-- Broadcasting part of numpy fancy assignment for a single value. -/
def writeAll (a : List Int) (ps : List Nat) (v : Int) : List Int :=
  match ps with
  | [] => a
  | p :: rest => writeAll (a.set p v) rest v

/-- Concatenated `make_index` results of several selectors
(`reduce(pd.MultiIndex.append, idx_list)`). -/
def buildIndexList : List String → Option (List (List (List Elem)))
  | [] => some []
  | s :: ss =>
    match makeIndex s, buildIndexList ss with
    | some idx, some idxs => some (idx :: idxs)
    | _, _ => none

/-- `PortMapper.__init__` for a list of selectors: build one index per
selector, append them in order, and bind to `data`; assigning the index to
the `arange` Series raises when the lengths differ.  The level count comes
from the first selector's token list. -/
def PortMapper.build (data : List Int) (selectors : List String) : Option PortMapper :=
  match selectors with
  | [] => none
  | s0 :: _ =>
    match buildIndexList selectors, tokenize s0 with
    | some idxs, some ts0 =>
      let keys := idxs.flatten
      if keys.length = data.length then some ⟨data, keys, ts0.length⟩ else none
    | _, _ => none

/-- `PortMapper.get`: select positions, read the buffer there, return the
values in position order (a numpy fancy read returns a copy). -/
def PortMapper.get (pm : PortMapper) (sel : String) : Option (List Int) :=
  (tokenize sel).bind (fun ts =>
    (selectPositions pm ts).bind (fun ps => readAll pm.data ps))

/-- `PortMapper.set`: select positions, then numpy fancy assignment
`self.data[positions] = values`: pairwise when the lengths agree, a
broadcast when `values` has length one, and a `ValueError` (buffer
untouched) otherwise; out-of-range positions raise `IndexError`. -/
def PortMapper.set (pm : PortMapper) (sel : String) (vals : List Int) :
    Option PortMapper :=
  (tokenize sel).bind (fun ts =>
    (selectPositions pm ts).bind (fun ps =>
      if ps.all (fun p => p < pm.data.length) then
        if vals.length = ps.length then
          some { pm with data := writePairs pm.data ps vals }
        else if vals.length = 1 then
          some { pm with data := writeAll pm.data ps (vals.headD 0) }
        else none
      else none))

/-! Helper lemmas. -/

theorem pySlice_none_none (l : List α) : pySlice l none none = l := by
  simp [pySlice, pyIdx]

theorem testFrom_cons_shift (x : Elem) (row : List Elem) (ts : List Token) :
    ∀ i, testFrom (x :: row) (i + 1) ts = testFrom row i ts := by
  induction ts with
  | nil => intro i; rfl
  | cons t ts ih =>
    intro i
    cases t <;> simp [testFrom, List.get?_cons_succ, ih (i + 1)]

theorem tokenMatch_of_mem_cand {t : Token} {c : List Elem} {x : Elem}
    (hc : candList t = some c) (hx : x ∈ c) : tokenMatch t x = true := by
  cases t with
  | asterisk => rfl
  | integer v =>
    simp only [candList, Option.some.injEq] at hc
    subst hc
    simp only [List.mem_singleton] at hx
    simp [tokenMatch, hx]
  | string s =>
    simp only [candList, Option.some.injEq] at hc
    subst hc
    simp only [List.mem_singleton] at hx
    simp [tokenMatch, hx]
  | integerSet vs =>
    simp only [candList, Option.some.injEq] at hc
    subst hc
    simp [tokenMatch, hx]
  | stringSet ss =>
    simp only [candList, Option.some.injEq] at hc
    subst hc
    simp [tokenMatch, hx]
  | interval a b =>
    cases b with
    | none => simp [candList] at hc
    | some b' =>
      simp only [candList, Option.some.injEq] at hc
      subst hc
      obtain ⟨k, hk, rfl⟩ := List.mem_map.mp hx
      rw [List.mem_range] at hk
      simp only [tokenMatch, pyGeInt, pyLtInt, Bool.and_eq_true, decide_eq_true_eq]
      omega

theorem mem_prodCons {c : List Elem} {tails : List (List Elem)} {ks : List Elem} :
    ks ∈ prodCons c tails ↔ ∃ x ∈ c, ∃ tl ∈ tails, ks = x :: tl := by
  induction c with
  | nil => simp [prodCons]
  | cons x xs ih =>
    simp only [prodCons, List.mem_append, List.mem_map, ih, List.mem_cons]
    constructor
    · rintro (⟨tl, htl, rfl⟩ | ⟨y, hy, tl, htl, rfl⟩)
      · exact ⟨x, Or.inl rfl, tl, htl, rfl⟩
      · exact ⟨y, Or.inr hy, tl, htl, rfl⟩
    · rintro ⟨y, hy | hy, tl, htl, rfl⟩
      · exact Or.inl ⟨tl, htl, by rw [hy]⟩
      · exact Or.inr ⟨y, hy, tl, htl, rfl⟩

theorem testFrom_of_mem_listProd :
    ∀ (ts : List Token) (cs : List (List Elem)) (k : List Elem),
      candLists ts = some cs → k ∈ listProd cs → testFrom k 0 ts = true := by
  intro ts
  induction ts with
  | nil =>
    intro cs k hc _
    cases cs <;> rfl
  | cons t ts ih =>
    intro cs k hc hk
    revert hc
    cases h1 : candList t with
    | none => simp [candLists, h1]
    | some c =>
      cases h2 : candLists ts with
      | none => simp [candLists, h1, h2]
      | some cs' =>
        simp only [candLists, h1, h2, Option.some.injEq]
        intro hc
        subst hc
        rw [listProd] at hk
        obtain ⟨x, hx, tl, htl, rfl⟩ := mem_prodCons.mp hk
        have hm := tokenMatch_of_mem_cand h1 hx
        have hrest : testFrom (x :: tl) 1 ts = true := by
          rw [testFrom_cons_shift]
          exact ih cs' tl h2 htl
        cases t <;>
          simp_all [testFrom, List.get?_cons_zero]

/-! Claims about building an index and selecting from it. -/

/-- C1: for a selector with no wildcard token whose index construction
succeeds (which, in particular, forces every interval's right endpoint to
be bounded), selecting with the same selector string over the table built
from `make_index` returns exactly the built keys, in construction order. -/
theorem c1_build_then_select (sel : String) (ts : List Token)
    (keys : List (List Elem)) (names : List String)
    (hts : tokenize sel = some ts)
    (hw : ∀ t ∈ ts, t ≠ Token.asterisk)
    (hmk : makeIndex sel = some keys)
    (hn : names.length = ts.length) :
    selectStr ⟨names, keys⟩ sel none none = some keys := by
  have _ := hw
  unfold makeIndex at hmk
  by_cases hg : startsWithSlashStarSlash sel.data
  · simp [hg] at hmk
  · rw [if_neg hg, hts] at hmk
    simp only [Option.bind] at hmk
    unfold selectStr
    rw [hts]
    simp only [Option.bind]
    unfold selectT
    rw [if_neg]
    · congr 1
      apply List.filter_eq_self.mpr
      intro r hr
      unfold makeIndexT at hmk
      cases ts with
      | nil => exact absurd hmk (by simp)
      | cons t ts' =>
        revert hmk
        cases h2 : candLists (t :: ts') with
        | none => simp
        | some cs =>
          simp only [Option.map, Option.some.injEq]
          intro hkeys
          subst hkeys
          unfold selectTest
          rw [pySlice_none_none]
          exact testFrom_of_mem_listProd (t :: ts') cs r h2 hr
    · rw [pySlice_none_none]
      simp [hn]

/-- C1 witness: the concrete selector `/bar/[qux,mof][0:2]` built and then
selected returns its four keys in construction order. -/
theorem c1_build_then_select_witness :
    tokenize ("/bar/[qux,mof][0:2]") =
      some [Token.string "bar", Token.stringSet ["qux", "mof"],
            Token.interval 0 (some 2)] ∧
    makeIndex ("/bar/[qux,mof][0:2]") =
      some [[Elem.str "bar", Elem.str "qux", Elem.int 0],
            [Elem.str "bar", Elem.str "qux", Elem.int 1],
            [Elem.str "bar", Elem.str "mof", Elem.int 0],
            [Elem.str "bar", Elem.str "mof", Elem.int 1]] ∧
    selectStr
      ⟨["x", "y", "z"],
       [[Elem.str "bar", Elem.str "qux", Elem.int 0],
        [Elem.str "bar", Elem.str "qux", Elem.int 1],
        [Elem.str "bar", Elem.str "mof", Elem.int 0],
        [Elem.str "bar", Elem.str "mof", Elem.int 1]]⟩
      ("/bar/[qux,mof][0:2]") none none =
      some [[Elem.str "bar", Elem.str "qux", Elem.int 0],
            [Elem.str "bar", Elem.str "qux", Elem.int 1],
            [Elem.str "bar", Elem.str "mof", Elem.int 0],
            [Elem.str "bar", Elem.str "mof", Elem.int 1]] :=
  ⟨rfl, rfl,
   c1_build_then_select _ _ _ _ rfl (by decide) rfl rfl⟩

/-- C2: the code does not reject wildcards in `make_index`.  The assertion
`assert not re.match(r'/\*/', selector)` only fires on a selector that
begins with `/*/`, so `/foo/*` passes the guard and `make_index` returns an
index containing the literal label `'*'` instead of failing — contradicting
the method's own docstring ("The selector may not contain any '*'
character") and the claimed `NonEnumerableSelectorError`. -/
theorem c2_make_index_accepts_wildcard :
    makeIndex ("/foo/*") = some [[Elem.str "foo", Elem.str "*"]] := rfl

/-- Hierarchically keyed table of the repository's unit tests
(`test_path_like_selector.setUp`); the integer level names `0,1,2` are
rendered as strings, only their count matters for selection. -/
def unitTestDf : DataFrame :=
  ⟨["n0", "n1", "n2"],
   [[Elem.str "foo", Elem.str "qux", Elem.int 0],
    [Elem.str "foo", Elem.str "qux", Elem.int 1],
    [Elem.str "foo", Elem.str "mof", Elem.int 0],
    [Elem.str "foo", Elem.str "mof", Elem.int 1],
    [Elem.str "foo", Elem.str "mof", Elem.int 2],
    [Elem.str "bar", Elem.str "qux", Elem.int 0],
    [Elem.str "bar", Elem.str "qux", Elem.int 1],
    [Elem.str "bar", Elem.str "qux", Elem.int 2],
    [Elem.str "baz", Elem.str "qux", Elem.int 0],
    [Elem.str "baz", Elem.str "mof", Elem.int 0]]⟩

/-- C3: the selector `/bar/qux[1]` tokenizes to exactly the three tokens
String(bar), String(qux), ExactInteger(1) — the bracketed integer directly
after `qux` is an independent token for the next level — and selecting with
it over the unit-test table (which contains the key `(bar,qux,1)`) returns
exactly that one key. -/
theorem c3_tokenize_and_select_concrete :
    tokenize ("/bar/qux[1]") =
      some [Token.string "bar", Token.string "qux", Token.integer 1] ∧
    selectStr unitTestDf ("/bar/qux[1]") none none =
      some [[Elem.str "bar", Elem.str "qux", Elem.int 1]] :=
  ⟨rfl, rfl⟩

/-- C4 counterexample: `[:]` parses to the interval `(0, +inf)` — the
missing left bound defaults to `0`, not to negative infinity — so the
integer `-1` fails the interval test, refuting "matches every integer at
that level". -/
theorem c4_interval_counterexample :
    tokenize ("[:]") = some [Token.interval 0 none] ∧
    tokenMatch (Token.interval 0 none) (Elem.int (-1)) = false :=
  ⟨rfl, rfl⟩

/-- C4 amended: the evaluator's interval test on an integer element passes
iff `a <= x < b`; with both bounds omitted the token is `(0, +inf)` and
matches exactly the non-negative integers. -/
theorem c4_interval_semantics (x a b : Int) :
    (tokenMatch (Token.interval a (some b)) (Elem.int x) = true ↔ a ≤ x ∧ x < b) ∧
    (tokenMatch (Token.interval 0 none) (Elem.int x) = true ↔ 0 ≤ x) := by
  constructor <;> simp [tokenMatch, pyGeInt, pyLtInt, pyLtInf]

/-- C6: whenever the token count of a selector exceeds the number of levels
of the sliced window `df.index.names[start:stop]`, `get_tuples`/`select`
raise (return no rows), for every table. -/
theorem c6_arity_guard (df : DataFrame) (sel : String) (ts : List Token)
    (start stop : Option Int)
    (hts : tokenize sel = some ts)
    (h : ts.length > (pySlice df.names start stop).length) :
    selectStr df sel start stop = none := by
  unfold selectStr
  rw [hts]
  simp only [Option.bind]
  unfold selectT
  rw [if_pos h]

/-- C6 witness: a two-token selector over a one-level window fails, even
though the table's only row would match the first token. -/
theorem c6_arity_guard_witness :
    tokenize ("/x/y") = some [Token.string "x", Token.string "y"] ∧
    [Token.string "x", Token.string "y"].length >
      (pySlice (["a", "b"] : List String) (some 0) (some 1)).length ∧
    selectStr ⟨["a", "b"], [[Elem.str "x", Elem.str "y"]]⟩ ("/x/y")
      (some 0) (some 1) = none :=
  ⟨rfl, by decide, c6_arity_guard _ _ _ _ _ rfl (by decide)⟩

/-- C10: the empty selector tokenizes to the empty token list (no lex
error), and selecting with it returns every row of any table in table
order — zero tokens vacuously match every key. -/
theorem c10_empty_selector (df : DataFrame) :
    tokenize ("") = some [] ∧ selectStr df ("") none none = some df.keys := by
  refine ⟨rfl, ?_⟩
  have h0 : tokenize ("") = some [] := rfl
  unfold selectStr
  rw [h0]
  simp only [Option.bind]
  unfold selectT
  rw [if_neg (by simp)]
  congr 1
  exact List.filter_eq_self.mpr (fun a _ => rfl)

theorem prodCons_length (c : List Elem) (tails : List (List Elem)) :
    (prodCons c tails).length = c.length * tails.length := by
  induction c with
  | nil => simp [prodCons]
  | cons x xs ih =>
    simp only [prodCons, List.length_append, List.length_map, ih, List.length_cons]
    ring

theorem listProd_length (cs : List (List Elem)) :
    (listProd cs).length = prodLen cs := by
  induction cs with
  | nil => rfl
  | cons c cs ih => rw [listProd, prodCons_length, ih, prodLen]

theorem prodCons_get? (T : List (List Elem)) (f : Nat → List Elem)
    (hf : ∀ j, j < T.length → T.get? j = some (f j)) :
    ∀ (c : List Elem) (k : Nat), k < c.length * T.length →
      (prodCons c T).get? k =
        some (c.getD (k / T.length) (Elem.int 0) :: f (k % T.length)) := by
  intro c
  induction c with
  | nil =>
    intro k hk
    simp at hk
  | cons x xs ih =>
    intro k hk
    have hT : 0 < T.length := by
      rcases Nat.eq_zero_or_pos T.length with h0 | hpos
      · rw [h0, Nat.mul_zero] at hk; exact absurd hk (by omega)
      · exact hpos
    by_cases hkT : k < T.length
    · rw [prodCons, List.get?_append (by simpa using hkT), List.get?_map,
        hf k hkT]
      rw [Nat.div_eq_of_lt hkT, Nat.mod_eq_of_lt hkT]
      rfl
    · push_neg at hkT
      rw [prodCons, List.get?_append_right (by simpa using hkT)]
      simp only [List.length_map]
      have hk' : k - T.length < xs.length * T.length := by
        rw [List.length_cons, Nat.succ_mul] at hk
        omega
      rw [ih (k - T.length) hk']
      rw [Nat.div_eq_sub_div hT hkT, Nat.mod_eq_sub_mod hkT]
      rfl

theorem listProd_get? :
    ∀ (cs : List (List Elem)) (k : Nat), k < prodLen cs →
      (listProd cs).get? k = some (decodeKey cs k) := by
  intro cs
  induction cs with
  | nil =>
    intro k hk
    have hk0 : k = 0 := by
      have : k < 1 := hk
      omega
    subst hk0
    rfl
  | cons c cs ih =>
    intro k hk
    rw [listProd, decodeKey]
    have hlen : (listProd cs).length = prodLen cs := listProd_length cs
    have h := prodCons_get? (listProd cs) (fun j => decodeKey cs j)
      (fun j hj => ih j (by rwa [hlen] at hj)) c k (by rw [hlen]; exact hk)
    rw [hlen] at h
    exact h

theorem makeIndexT_unbounded (ts : List Token) (a : Int)
    (h : Token.interval a none ∈ ts) : makeIndexT ts = none := by
  have hcl : candLists ts = none := by
    induction ts with
    | nil => simp at h
    | cons t ts ih =>
      rcases List.mem_cons.mp h with h' | h'
      · rw [← h']
        simp [candLists, candList]
      · cases h1 : candList t with
        | none => simp [candLists, h1]
        | some c => simp [candLists, h1, ih h']
  unfold makeIndexT
  cases ts with
  | nil => simp at h
  | cons t ts' => simp [hcl]

/-- C5: for a wildcard-free, nonempty token sequence whose candidate lists
all enumerate (`candLists`, built exactly as `make_index` builds
`list_list`), index construction returns the cartesian product of the
candidate lists in token order; the table has `prod |c_i|` keys, and the
key at 0-based position `k` is the mixed-radix decoding of `k` — the first
token varies slowest and the last fastest.  An interval with an infinite
right endpoint makes index construction fail. -/
theorem c5_index_enumeration (ts : List Token) (cs : List (List Elem))
    (hw : ∀ t ∈ ts, t ≠ Token.asterisk)
    (hne : ts ≠ [])
    (hcs : candLists ts = some cs) :
    makeIndexT ts = some (listProd cs) ∧
    (listProd cs).length = prodLen cs ∧
    (∀ k, k < prodLen cs → (listProd cs).get? k = some (decodeKey cs k)) ∧
    (∀ (us : List Token) (a : Int), Token.interval a none ∈ us →
      makeIndexT us = none) := by
  have _ := hw
  refine ⟨?_, listProd_length cs, fun k hk => listProd_get? cs k hk,
    fun us a h => makeIndexT_unbounded us a h⟩
  unfold makeIndexT
  cases ts with
  | nil => exact absurd rfl hne
  | cons t ts' => simp [hcs]

/-- C5 witness: the token sequence of `/a[3,1][0:2]` enumerates the
candidates `[a]`, `[3,1]`, `[0,1]` and produces the four keys in
first-slowest product order; position 2 decodes to `(a,1,0)`. -/
theorem c5_index_enumeration_witness :
    candLists [Token.string "a", Token.integerSet [3, 1],
      Token.interval 0 (some 2)] =
      some [[Elem.str "a"], [Elem.int 3, Elem.int 1], [Elem.int 0, Elem.int 1]] ∧
    makeIndexT [Token.string "a", Token.integerSet [3, 1],
      Token.interval 0 (some 2)] =
      some [[Elem.str "a", Elem.int 3, Elem.int 0],
            [Elem.str "a", Elem.int 3, Elem.int 1],
            [Elem.str "a", Elem.int 1, Elem.int 0],
            [Elem.str "a", Elem.int 1, Elem.int 1]] ∧
    (listProd [[Elem.str "a"], [Elem.int 3, Elem.int 1],
      [Elem.int 0, Elem.int 1]]).get? 2 =
      some (decodeKey [[Elem.str "a"], [Elem.int 3, Elem.int 1],
        [Elem.int 0, Elem.int 1]] 2) := by
  refine ⟨rfl, ?_, ?_⟩
  · exact (c5_index_enumeration
      [Token.string "a", Token.integerSet [3, 1], Token.interval 0 (some 2)]
      [[Elem.str "a"], [Elem.int 3, Elem.int 1], [Elem.int 0, Elem.int 1]]
      (by decide) (by decide) rfl).1
  · exact (c5_index_enumeration
      [Token.string "a", Token.integerSet [3, 1], Token.interval 0 (some 2)]
      [[Elem.str "a"], [Elem.int 3, Elem.int 1], [Elem.int 0, Elem.int 1]]
      (by decide) (by decide) rfl).2.2.1 2 (by decide)

/-! Lemmas about list reads and writes at positions. -/

theorem getq_set_self (a : List α) (i : Nat) (x : α) (h : i < a.length) :
    (a.set i x).get? i = some x := by
  induction a generalizing i with
  | nil => exact absurd h (by simp)
  | cons y ys ih =>
    cases i with
    | zero => rfl
    | succ j => exact ih j (by simpa using h)

theorem getq_set_ne (a : List α) (i j : Nat) (x : α) (h : i ≠ j) :
    (a.set i x).get? j = a.get? j := by
  induction a generalizing i j with
  | nil => rfl
  | cons y ys ih =>
    cases i with
    | zero =>
      cases j with
      | zero => exact absurd rfl h
      | succ j' => rfl
    | succ i' =>
      cases j with
      | zero => rfl
      | succ j' => exact ih i' j' (fun he => h (by rw [he]))

theorem set_getq_self (a : List α) (i : Nat) (x : α) (h : a.get? i = some x) :
    a.set i x = a := by
  induction a generalizing i with
  | nil => rfl
  | cons y ys ih =>
    cases i with
    | zero =>
      simp only [List.get?_cons_zero, Option.some.injEq] at h
      rw [List.set_cons_zero, h]
    | succ j =>
      rw [List.set_cons_succ, ih j (by simpa using h)]

theorem readAll_length (a : List Int) :
    ∀ (ps : List Nat) (vs : List Int), readAll a ps = some vs →
      vs.length = ps.length := by
  intro ps
  induction ps with
  | nil =>
    intro vs h
    simp only [readAll, Option.some.injEq] at h
    rw [← h]
    rfl
  | cons p ps ih =>
    intro vs h
    revert h
    unfold readAll
    cases h1 : a.get? p with
    | none => simp
    | some v =>
      cases h2 : readAll a ps with
      | none => simp
      | some vs' =>
        simp only [Option.some.injEq]
        intro h
        rw [← h]
        simp [ih vs' h2]

theorem readAll_bound (a : List Int) :
    ∀ (ps : List Nat) (vs : List Int), readAll a ps = some vs →
      ∀ p ∈ ps, p < a.length := by
  intro ps
  induction ps with
  | nil => intro vs _ p hp; simp at hp
  | cons q ps ih =>
    intro vs h p hp
    revert h
    unfold readAll
    cases h1 : a.get? q with
    | none => simp
    | some v =>
      cases h2 : readAll a ps with
      | none => simp
      | some vs' =>
        intro _
        rcases List.mem_cons.mp hp with rfl | hp'
        · by_contra hge
          push_neg at hge
          rw [List.get?_eq_none.mpr hge] at h1
          exact Option.noConfusion h1
        · exact ih vs' h2 p hp'

theorem writePairs_readAll (a : List Int) :
    ∀ (ps : List Nat) (vs : List Int), readAll a ps = some vs →
      writePairs a ps vs = a := by
  intro ps
  induction ps with
  | nil =>
    intro vs h
    simp only [readAll, Option.some.injEq] at h
    rw [← h]
    rfl
  | cons p ps ih =>
    intro vs h
    revert h
    unfold readAll
    cases h1 : a.get? p with
    | none => simp
    | some v =>
      cases h2 : readAll a ps with
      | none => simp
      | some vs' =>
        simp only [Option.some.injEq]
        intro h
        rw [← h]
        show writePairs (a.set p v) ps vs' = a
        rw [set_getq_self a p v h1]
        exact ih vs' h2

theorem writePairs_get?_not_mem (a : List Int) :
    ∀ (ps : List Nat) (vs : List Int) (j : Nat), j ∉ ps →
      (writePairs a ps vs).get? j = a.get? j := by
  intro ps
  induction ps generalizing a with
  | nil => intro vs j _; simp [writePairs]
  | cons p ps ih =>
    intro vs j hj
    cases vs with
    | nil => rfl
    | cons v vs =>
      show (writePairs (a.set p v) ps vs).get? j = a.get? j
      rw [ih (a.set p v) vs j (fun hmem => hj (List.mem_cons_of_mem p hmem))]
      exact getq_set_ne a p j v (fun he => hj (he ▸ List.mem_cons_self p ps))

theorem writePairs_get?_nodup (a : List Int) :
    ∀ (ps : List Nat) (vs : List Int), ps.Nodup → vs.length = ps.length →
      (∀ p ∈ ps, p < a.length) →
      ∀ i (hi : i < ps.length),
        (writePairs a ps vs).get? (ps.get ⟨i, hi⟩) = vs.get? i := by
  intro ps
  induction ps generalizing a with
  | nil => intro vs _ _ _ i hi; exact absurd hi (by simp)
  | cons p ps ih =>
    intro vs hnd hlen hbnd i hi
    cases vs with
    | nil => simp at hlen
    | cons v vs =>
      have hnd' := List.nodup_cons.mp hnd
      cases i with
      | zero =>
        show (writePairs (a.set p v) ps vs).get? p = some v
        rw [writePairs_get?_not_mem (a.set p v) ps vs p hnd'.1]
        exact getq_set_self a p v (hbnd p (List.mem_cons_self p ps))
      | succ i' =>
        have h := ih (a.set p v) vs hnd'.2 (by simpa using hlen)
          (fun q hq => by
            rw [List.length_set]
            exact hbnd q (List.mem_cons_of_mem p hq))
          i' (by simpa using hi)
        simpa using h

/-- C7 amended: with the positions selected by the selector all in range,
`PortMapper.set` writes the values pairwise into the buffer at the matched
positions in order when the lengths agree (positions not selected are
untouched), and fails — leaving the buffer untouched — when the lengths
differ, unless `values` has length one, in which case numpy broadcasting
applies (see the counterexample). -/
theorem c7_set_semantics (pm : PortMapper) (sel : String) (ts : List Token)
    (ps : List Nat) (vals : List Int)
    (hts : tokenize sel = some ts)
    (hps : selectPositions pm ts = some ps)
    (hbnd : ∀ p ∈ ps, p < pm.data.length) :
    (vals.length = ps.length →
      pm.set sel vals = some { pm with data := writePairs pm.data ps vals } ∧
      (ps.Nodup → ∀ i (hi : i < ps.length),
        (writePairs pm.data ps vals).get? (ps.get ⟨i, hi⟩) = vals.get? i) ∧
      (∀ j, j ∉ ps → (writePairs pm.data ps vals).get? j = pm.data.get? j)) ∧
    (vals.length ≠ ps.length → vals.length ≠ 1 → pm.set sel vals = none) := by
  have hall : ps.all (fun p => p < pm.data.length) = true := by
    rw [List.all_eq_true]
    intro p hp
    simpa using hbnd p hp
  constructor
  · intro hlen
    refine ⟨?_,
      fun hnd i hi => writePairs_get?_nodup pm.data ps vals hnd hlen hbnd i hi,
      fun j hj => writePairs_get?_not_mem pm.data ps vals j hj⟩
    unfold PortMapper.set
    rw [hts]
    show (selectPositions pm ts).bind _ = _
    rw [hps]
    show (if ps.all (fun p => p < pm.data.length) then _ else _) = _
    rw [if_pos hall, if_pos hlen]
  · intro h1 h2
    unfold PortMapper.set
    rw [hts]
    show (selectPositions pm ts).bind _ = _
    rw [hps]
    show (if ps.all (fun p => p < pm.data.length) then _ else _) = _
    rw [if_pos hall, if_neg h1, if_neg h2]

/-- C7 witness: on the scenario-4 PortMapper, a 3-value write through
`/a[0:3]` succeeds pairwise in order, and a 2-value write fails. -/
theorem c7_set_semantics_witness :
    PortMapper.set
      ⟨[10, 20, 30],
       [[Elem.str "a", Elem.int 0], [Elem.str "a", Elem.int 1],
        [Elem.str "a", Elem.int 2]], 2⟩ ("/a[0:3]") [7, 8, 9] =
      some ⟨[7, 8, 9],
        [[Elem.str "a", Elem.int 0], [Elem.str "a", Elem.int 1],
         [Elem.str "a", Elem.int 2]], 2⟩ ∧
    PortMapper.set
      ⟨[10, 20, 30],
       [[Elem.str "a", Elem.int 0], [Elem.str "a", Elem.int 1],
        [Elem.str "a", Elem.int 2]], 2⟩ ("/a[0:3]") [5, 6] = none := by
  constructor
  · exact ((c7_set_semantics
      ⟨[10, 20, 30],
       [[Elem.str "a", Elem.int 0], [Elem.str "a", Elem.int 1],
        [Elem.str "a", Elem.int 2]], 2⟩
      ("/a[0:3]") [Token.string "a", Token.interval 0 (some 3)] [0, 1, 2]
      [7, 8, 9] rfl rfl (by decide)).1 rfl).1
  · exact (c7_set_semantics
      ⟨[10, 20, 30],
       [[Elem.str "a", Elem.int 0], [Elem.str "a", Elem.int 1],
        [Elem.str "a", Elem.int 2]], 2⟩
      ("/a[0:3]") [Token.string "a", Token.interval 0 (some 3)] [0, 1, 2]
      [5, 6] rfl rfl (by decide)).2 (by decide) (by decide)

/-- C7 counterexample: the claim requires `set` to fail whenever the value
count differs from the matched-position count, but numpy fancy assignment
broadcasts a single value: on the scenario-4 PortMapper (buffer
`[10,20,30]` built from `/a[0:3]`), `set("/a[0:3]", [99])` has 1 value for
3 positions yet succeeds, overwriting the whole buffer with 99. -/
theorem c7_broadcast_counterexample :
    PortMapper.build [10, 20, 30] ["/a[0:3]"] =
      some ⟨[10, 20, 30],
        [[Elem.str "a", Elem.int 0], [Elem.str "a", Elem.int 1],
         [Elem.str "a", Elem.int 2]], 2⟩ ∧
    PortMapper.set
      ⟨[10, 20, 30],
       [[Elem.str "a", Elem.int 0], [Elem.str "a", Elem.int 1],
        [Elem.str "a", Elem.int 2]], 2⟩ ("/a[0:3]") [99] =
      some ⟨[99, 99, 99],
        [[Elem.str "a", Elem.int 0], [Elem.str "a", Elem.int 1],
         [Elem.str "a", Elem.int 2]], 2⟩ :=
  ⟨rfl, rfl⟩

/-- C8: `get` reads the buffer without mutating anything (it is a pure
function of the PortMapper in this embedding, returning a copy), and the
round trip `set(s, get(s))` writes every read value back to the position
it was read from, so the PortMapper — buffer included — is unchanged, and
a subsequent `get(s)` returns the original values (the hypothesis `h`
itself). -/
theorem c8_get_set_roundtrip (pm : PortMapper) (sel : String) (vs : List Int)
    (h : pm.get sel = some vs) :
    pm.set sel vs = some pm := by
  unfold PortMapper.get at h
  revert h
  cases h1 : tokenize sel with
  | none => simp
  | some ts =>
    show (selectPositions pm ts).bind _ = _ → _
    cases h2 : selectPositions pm ts with
    | none => simp
    | some ps =>
      show readAll pm.data ps = some vs → _
      intro h
      unfold PortMapper.set
      rw [h1]
      show (selectPositions pm ts).bind _ = _
      rw [h2]
      show (if ps.all (fun p => p < pm.data.length) then _ else _) = _
      rw [if_pos ?hall, if_pos (readAll_length pm.data ps vs h)]
      case hall =>
        rw [List.all_eq_true]
        intro p hp
        simpa using readAll_bound pm.data ps vs h p hp
      rw [writePairs_readAll pm.data ps vs h]

/-- C8 witness: on the scenario-4 PortMapper, `get("/a[1]") = [20]` and
writing `[20]` back through the same selector leaves the mapper intact. -/
theorem c8_get_set_roundtrip_witness :
    PortMapper.get
      ⟨[10, 20, 30],
       [[Elem.str "a", Elem.int 0], [Elem.str "a", Elem.int 1],
        [Elem.str "a", Elem.int 2]], 2⟩ ("/a[1]") = some [20] ∧
    PortMapper.set
      ⟨[10, 20, 30],
       [[Elem.str "a", Elem.int 0], [Elem.str "a", Elem.int 1],
        [Elem.str "a", Elem.int 2]], 2⟩ ("/a[1]") [20] =
      some ⟨[10, 20, 30],
        [[Elem.str "a", Elem.int 0], [Elem.str "a", Elem.int 1],
         [Elem.str "a", Elem.int 2]], 2⟩ :=
  ⟨rfl,
   c8_get_set_roundtrip
     ⟨[10, 20, 30],
      [[Elem.str "a", Elem.int 0], [Elem.str "a", Elem.int 1],
       [Elem.str "a", Elem.int 2]], 2⟩ ("/a[1]") [20] rfl⟩

theorem queryTestFrom_eq_testFrom (row : List Elem) :
    ∀ (ts : List Token) (i : Nat),
      (∀ t ∈ ts, isSetToken t = false) →
      (∀ a : Int, Token.interval a none ∉ ts) →
      queryTestFrom row i ts = testFrom row i ts := by
  intro ts
  induction ts with
  | nil => intro i _ _; rfl
  | cons t ts ih =>
    intro i hset hb
    have hset' : ∀ u ∈ ts, isSetToken u = false :=
      fun u hu => hset u (List.mem_cons_of_mem t hu)
    have hb' : ∀ a : Int, Token.interval a none ∉ ts :=
      fun a ha => hb a (List.mem_cons_of_mem t ha)
    cases t with
    | asterisk =>
      show queryTestFrom row (i + 1) ts = testFrom row (i + 1) ts
      exact ih (i + 1) hset' hb'
    | integer v =>
      show ((match row.get? i with
            | some e => tokenMatch (Token.integer v) e
            | none => false) && queryTestFrom row (i + 1) ts) = _
      rw [ih (i + 1) hset' hb']
      rfl
    | string s =>
      show ((match row.get? i with
            | some e => tokenMatch (Token.string s) e
            | none => false) && queryTestFrom row (i + 1) ts) = _
      rw [ih (i + 1) hset' hb']
      rfl
    | interval a b =>
      cases b with
      | none => exact absurd (List.mem_cons_self _ _) (hb a)
      | some b' =>
        show ((match row.get? i with
              | some e => pyGeInt e a && pyLtInt e b'
              | none => false) && queryTestFrom row (i + 1) ts) = _
        rw [ih (i + 1) hset' hb']
        rfl
    | integerSet vs =>
      have := hset (Token.integerSet vs) (List.mem_cons_self _ _)
      simp [isSetToken] at this
    | stringSet ss =>
      have := hset (Token.stringSet ss) (List.mem_cons_self _ _)
      simp [isSetToken] at this

/-- C9 amended: for every selector accepted by both paths that contains no
set token and no unbounded interval, the expression-based `query` path
returns exactly the rows of the positional `select` path, in the same
order.  The two exclusions are forced by the counterexample: `query` skips
set tokens entirely, and it emits no upper-bound comparison for an
unbounded interval, which Python 2 string comparisons turn into a match
that the positional evaluator rejects. -/
theorem c9_query_matches_select (df : DataFrame) (ts : List Token)
    (r : List (List Elem))
    (hset : ∀ t ∈ ts, isSetToken t = false)
    (hb : ∀ a : Int, Token.interval a none ∉ ts)
    (hq : queryT df ts = some r) :
    selectT df ts none none = some r := by
  unfold queryT at hq
  by_cases h1 : ts.length > df.names.length
  · rw [if_pos h1] at hq
    exact Option.noConfusion hq
  · rw [if_neg h1] at hq
    by_cases h2 : (!(df.names.all isValidVarName)) = true
    · rw [if_pos h2] at hq
      exact Option.noConfusion hq
    · rw [if_neg h2] at hq
      by_cases h3 : (!(ts.any hasExprToken)) = true
      · rw [if_pos h3] at hq
        exact Option.noConfusion hq
      · rw [if_neg h3] at hq
        have hr := Option.some.inj hq
        unfold selectT
        rw [if_neg (by rw [pySlice_none_none]; exact h1)]
        rw [← hr]
        congr 1
        apply List.filter_congr
        intro x _
        unfold selectTest
        rw [pySlice_none_none]
        exact (queryTestFrom_eq_testFrom x ts 0 hset hb).symm

/-- C9 witness: on a table with valid identifier level names, the selector
`/foo[0:2]` (exact token plus bounded interval) returns the same two rows
in the same order through both paths. -/
theorem c9_query_matches_select_witness :
    queryT ⟨["a", "b"],
      [[Elem.str "foo", Elem.int 0], [Elem.str "foo", Elem.int 1],
       [Elem.str "foo", Elem.int 5], [Elem.str "bar", Elem.int 0]]⟩
      [Token.string "foo", Token.interval 0 (some 2)] =
      some [[Elem.str "foo", Elem.int 0], [Elem.str "foo", Elem.int 1]] ∧
    selectT ⟨["a", "b"],
      [[Elem.str "foo", Elem.int 0], [Elem.str "foo", Elem.int 1],
       [Elem.str "foo", Elem.int 5], [Elem.str "bar", Elem.int 0]]⟩
      [Token.string "foo", Token.interval 0 (some 2)] none none =
      some [[Elem.str "foo", Elem.int 0], [Elem.str "foo", Elem.int 1]] := by
  refine ⟨rfl, ?_⟩
  exact c9_query_matches_select
    ⟨["a", "b"],
     [[Elem.str "foo", Elem.int 0], [Elem.str "foo", Elem.int 1],
      [Elem.str "foo", Elem.int 5], [Elem.str "bar", Elem.int 0]]⟩
    [Token.string "foo", Token.interval 0 (some 2)]
    [[Elem.str "foo", Elem.int 0], [Elem.str "foo", Elem.int 1]]
    (by decide) (by intro a h; simp at h) rfl

/-- C9 counterexample: two concrete divergences between the two selection
paths.  First, `query` ignores set tokens (`else: continue`), so
`/foo/[qux,mof]` returns both rows of a table whose second row `(foo,zzz)`
the positional evaluator rejects.  Second, for the unbounded interval in
`/foo[0:]` `query` emits only `b >= 0`, which is true of the string `bar`
under Python 2 comparison rules, while the positional evaluator also tests
`b < inf`, which is false for a string — so `query` keeps a row `select`
drops. -/
theorem c9_query_select_diverge :
    queryStr ⟨["a", "b"],
      [[Elem.str "foo", Elem.str "qux"], [Elem.str "foo", Elem.str "zzz"]]⟩
      ("/foo/[qux,mof]") =
      some [[Elem.str "foo", Elem.str "qux"], [Elem.str "foo", Elem.str "zzz"]] ∧
    selectStr ⟨["a", "b"],
      [[Elem.str "foo", Elem.str "qux"], [Elem.str "foo", Elem.str "zzz"]]⟩
      ("/foo/[qux,mof]") none none =
      some [[Elem.str "foo", Elem.str "qux"]] ∧
    queryStr ⟨["a", "b"], [[Elem.str "foo", Elem.str "bar"]]⟩ ("/foo[0:]") =
      some [[Elem.str "foo", Elem.str "bar"]] ∧
    selectStr ⟨["a", "b"], [[Elem.str "foo", Elem.str "bar"]]⟩ ("/foo[0:]")
      none none = some [] :=
  ⟨rfl, rfl, rfl, rfl⟩

end Plsel
